import Mathlib

/-!
Verification of the CTTraderbot signal pipeline and paper-trading ledger.

This file is a shallow embedding, in Lean 4, of the parts of the repository
that the frozen claims are about:

* `src/trading_journal.py` — the `TradingJournal` class (`open_trade`,
  `close_trade`, `reset`, `get_open_trades`) and the `VirtualTrader.on_signal`
  policy layered above it;
* `src/analyzer.py` — `ForexAnalyzer.calculate_ema`, `get_trend`,
  `calculate_rsi`, `get_candle_patterns` and the nested `cluster_levels`
  helper of `find_support_resistance`.

Python floats are idealised as rationals (`ℚ`); where the pandas/numpy code
can produce NaN or infinities (the RSI pipeline), values are modelled with an
explicit extended type `PF` carrying `nan` / `pinf` / `ninf` alongside finite
rationals, with IEEE-754 propagation rules for the operations that actually
occur.  Python exceptions (IndexError from out-of-range `iloc`) are modelled
by `Option`-valued functions returning `none`.  Timestamps
(`datetime.now().isoformat()`) and the free-form `signal_info` / `notes`
fields of a trade are omitted: no claim observes them and they influence no
control flow.  Trade ids are modelled as the underlying counter value: the
source formats the counter as the string `TR` followed by the zero-padded
decimal counter, which is injective in the counter, so id equality tests in
the source coincide with equality of counters.
-/

/-- Python `round(x, nd)`: round-half-to-even at the integer level
(banker's rounding, the semantics of Python's built-in `round`). -/
def pyRoundInt (x : ℚ) : ℤ :=
  let f : ℤ := ⌊x⌋
  let r : ℚ := x - f
  if r < 1/2 then f
  else if 1/2 < r then f + 1
  else if f % 2 = 0 then f else f + 1

/-- Python `round(x, nd)` on an exact rational: scale, banker-round, unscale. -/
def pyRound (x : ℚ) (nd : ℕ) : ℚ :=
  (pyRoundInt (x * 10 ^ nd) : ℚ) / 10 ^ nd

/-- Trade direction; the source stores the strings BUY / SELL. -/
inductive Direction where
  | BUY
  | SELL
deriving DecidableEq, Repr

/-- Trade status; the source stores the strings OPEN / CLOSED. -/
inductive Status where
  | OPEN
  | CLOSED
deriving DecidableEq, Repr

/-- One record of `TradingJournal.open_trade`'s trade dict
(`src/trading_journal.py` lines 80–95), minus the timestamp and
free-text fields (see the header comment). -/
structure Trade where
  id : ℕ
  pair : String
  direction : Direction
  entry_price : ℚ
  lot_size : ℚ
  status : Status
  exit_price : Option ℚ
  exit_reason : Option String
  pips : ℚ
  pnl : ℚ
deriving DecidableEq, Repr

/-- The in-memory state of a `TradingJournal`: the trades list
(`self.trades['trades']`), `self.balance`, and `self.trade_counter`. -/
structure Journal where
  trades : List Trade
  balance : ℚ
  counter : ℕ
deriving DecidableEq, Repr

/-- A freshly constructed `TradingJournal(balance)` with no persisted files:
no trades, the given balance, and `trade_counter = len(trades) + 1 = 1`. -/
def initJournal (b : ℚ) : Journal :=
  { trades := [], balance := b, counter := 1 }

/-- The trade dict built by `open_trade` (lines 80–95): status OPEN,
pips and pnl initialised to 0, exit fields empty. -/
def newTrade (tid : ℕ) (pair : String) (dir : Direction) (entry lot : ℚ) : Trade :=
  { id := tid, pair := pair, direction := dir, entry_price := entry,
    lot_size := lot, status := Status.OPEN, exit_price := none,
    exit_reason := none, pips := 0, pnl := 0 }

/-- `TradingJournal.open_trade` (lines 75–100): assign the counter as the id,
increment the counter, append the new OPEN trade, return the id.
There is no conflict check of any kind in the source. -/
def Journal.open_trade (j : Journal) (pair : String) (dir : Direction)
    (entry lot : ℚ) : ℕ × Journal :=
  let tid := j.counter
  (tid, { j with counter := j.counter + 1,
                 trades := j.trades ++ [newTrade tid pair dir entry lot] })

/-- The mutation `close_trade` applies to the matched trade
(lines 106–118): set exit fields, flip status to CLOSED, compute
pips (rounded to 1 decimal) and pnl (rounded to 2 decimals). -/
def closeCalc (t : Trade) (exit_px : ℚ) (reason : String) : Trade :=
  let pips :=
    match t.direction with
    | Direction.BUY => pyRound ((exit_px - t.entry_price) * 10000) 1
    | Direction.SELL => pyRound ((t.entry_price - exit_px) * 10000) 1
  let pnl := pyRound (pips * t.lot_size * 10) 2
  { t with exit_price := some exit_px, exit_reason := some reason,
           status := Status.CLOSED, pips := pips, pnl := pnl }

/-- The search loop of `close_trade` (lines 104–127): scan the trades list
for the first trade whose id matches and whose status is OPEN; mutate it in
place.  Returns the closed trade and the updated list, or `none` when no
open trade with that id exists (the source then returns `None`). -/
def closeFirst (tid : ℕ) (exit_px : ℚ) (reason : String) :
    List Trade → Option (Trade × List Trade)
  | [] => none
  | t :: ts =>
    if t.id = tid ∧ t.status = Status.OPEN then
      let t2 := closeCalc t exit_px reason
      some (t2, t2 :: ts)
    else
      match closeFirst tid exit_px reason ts with
      | none => none
      | some (c, ts2) => some (c, t :: ts2)

/-- `TradingJournal.close_trade` (lines 102–127): on a match, update the
trade and add its pnl to the balance; otherwise return `None` and leave
the journal untouched. -/
def Journal.close_trade (j : Journal) (tid : ℕ) (exit_px : ℚ)
    (reason : String) : Option Trade × Journal :=
  match closeFirst tid exit_px reason j.trades with
  | none => (none, j)
  | some (t2, ts2) =>
    (some t2, { j with trades := ts2, balance := j.balance + t2.pnl })

/-- `TradingJournal.reset` (lines 256–262): drop all trades and set the
balance.  The source does not reset `trade_counter`. -/
def Journal.reset (j : Journal) (newBal : ℚ) : Journal :=
  { j with trades := [], balance := newBal }

/-- `TradingJournal.get_open_trades` (lines 142–144). -/
def Journal.get_open_trades (j : Journal) : List Trade :=
  j.trades.filter (fun t => decide (t.status = Status.OPEN))

/-- Sum of `pnl` over the CLOSED trades of a list — the quantity named by
the spec's balance invariant. -/
def sumClosedPnl : List Trade → ℚ
  | [] => 0
  | t :: ts => (if t.status = Status.CLOSED then t.pnl else 0) + sumClosedPnl ts

/-- One ledger operation, for stating trace properties of the journal. -/
inductive LedgerOp where
  | openT (pair : String) (dir : Direction) (entry lot : ℚ)
  | closeT (tid : ℕ) (exit_px : ℚ) (reason : String)
  | resetT (newBal : ℚ)

/-- Apply one ledger operation to a journal state. -/
def applyOp (j : Journal) : LedgerOp → Journal
  | LedgerOp.openT p d e l => (j.open_trade p d e l).2
  | LedgerOp.closeT tid px r => (j.close_trade tid px r).2
  | LedgerOp.resetT nb => j.reset nb

/-- Run a sequence of ledger operations from a fresh journal. -/
def runOps (ops : List LedgerOp) (b : ℚ) : Journal :=
  ops.foldl applyOp (initJournal b)

/-- The balance established by the most recent reset in a run, or the
initial balance when no reset occurred. -/
def lastResetBal (b : ℚ) (ops : List LedgerOp) : ℚ :=
  ops.foldl (fun acc op =>
    match op with
    | LedgerOp.resetT nb => nb
    | _ => acc) b

-- ==================== C1 supporting lemmas ====================

theorem sumClosedPnl_append (l1 l2 : List Trade) :
    sumClosedPnl (l1 ++ l2) = sumClosedPnl l1 + sumClosedPnl l2 := by
  induction l1 with
  | nil => simp [sumClosedPnl]
  | cons t ts ih => simp [sumClosedPnl, ih]; ring

theorem closeCalc_status (t : Trade) (px : ℚ) (r : String) :
    (closeCalc t px r).status = Status.CLOSED := rfl

theorem closeFirst_sum (tid : ℕ) (px : ℚ) (r : String) :
    ∀ (ts : List Trade) (t2 : Trade) (ts2 : List Trade),
      closeFirst tid px r ts = some (t2, ts2) →
      sumClosedPnl ts2 = sumClosedPnl ts + t2.pnl := by
  intro ts
  induction ts with
  | nil => intro t2 ts2 h; simp [closeFirst] at h
  | cons t ts ih =>
    intro t2 ts2 h
    by_cases hc : t.id = tid ∧ t.status = Status.OPEN
    · simp only [closeFirst, if_pos hc] at h
      obtain ⟨h1, h2⟩ := Prod.mk.injEq .. ▸ Option.some.injEq .. ▸ h
      subst h1; subst h2
      simp [sumClosedPnl, closeCalc, hc.2]
      ring
    · simp only [closeFirst, if_neg hc] at h
      cases hrec : closeFirst tid px r ts with
      | none => rw [hrec] at h; exact absurd h (by simp)
      | some p =>
        rw [hrec] at h
        obtain ⟨c, ts2'⟩ := p
        obtain ⟨h1, h2⟩ := Prod.mk.injEq .. ▸ Option.some.injEq .. ▸ h
        subst h1; subst h2
        simp [sumClosedPnl, ih c ts2' hrec]
        ring

/-- The running "reference balance" for the balance invariant: a reset
replaces it, other operations keep it. -/
def nextBase (base : ℚ) : LedgerOp → ℚ
  | LedgerOp.resetT nb => nb
  | _ => base

theorem applyOp_invariant (op : LedgerOp) (j : Journal) (base : ℚ)
    (h : j.balance = base + sumClosedPnl j.trades) :
    (applyOp j op).balance =
      nextBase base op + sumClosedPnl (applyOp j op).trades := by
  cases op with
  | openT p d e l =>
    simp only [applyOp, Journal.open_trade, nextBase]
    simp [sumClosedPnl_append, sumClosedPnl, newTrade, h]
  | closeT tid px r =>
    simp only [applyOp, Journal.close_trade, nextBase]
    cases hcf : closeFirst tid px r j.trades with
    | none => simpa using h
    | some p =>
      obtain ⟨t2, ts2⟩ := p
      simp only []
      rw [closeFirst_sum tid px r j.trades t2 ts2 hcf]
      rw [h]; ring
  | resetT nb =>
    simp [applyOp, Journal.reset, sumClosedPnl, nextBase]

theorem foldl_ops_invariant :
    ∀ (ops : List LedgerOp) (j : Journal) (base : ℚ),
      j.balance = base + sumClosedPnl j.trades →
      (ops.foldl applyOp j).balance =
        lastResetBal base ops + sumClosedPnl (ops.foldl applyOp j).trades := by
  intro ops
  induction ops with
  | nil => intro j base h; simpa [lastResetBal] using h
  | cons op ops ih =>
    intro j base h
    have step := applyOp_invariant op j base h
    have htail := ih (applyOp j op) (nextBase base op) step
    have hbase : ∀ acc, lastResetBal acc (op :: ops) = lastResetBal (nextBase acc op) ops := by
      intro acc
      cases op <;> simp [lastResetBal, nextBase]
    rw [List.foldl_cons, hbase]
    exact htail

/-- Claim C1: after any sequence of open_trade, close_trade and reset
operations, the journal balance equals the initial (or most recent reset)
balance plus the sum of pnl over all CLOSED trades; moreover open_trade
never changes the balance and a close_trade that finds no open trade with
the given id leaves the journal unchanged. -/
theorem ledger_balance_invariant (ops : List LedgerOp) (b : ℚ) :
    (runOps ops b).balance =
      lastResetBal b ops + sumClosedPnl (runOps ops b).trades ∧
    (∀ (j : Journal) (p : String) (d : Direction) (e l : ℚ),
      ((j.open_trade p d e l).2).balance = j.balance) ∧
    (∀ (j : Journal) (tid : ℕ) (px : ℚ) (r : String),
      (j.close_trade tid px r).1 = none → (j.close_trade tid px r).2 = j) := by
  refine ⟨?_, ?_, ?_⟩
  · exact foldl_ops_invariant ops (initJournal b) b (by simp [initJournal, sumClosedPnl])
  · intro j p d e l; rfl
  · intro j tid px r h
    unfold Journal.close_trade at h ⊢
    cases hcf : closeFirst tid px r j.trades with
    | none => simp [hcf]
    | some p2 => rw [hcf] at h; simp at h

/-- Claim C2: opening a BUY on EURUSD at 1.1000 with lot 0.01 and closing at
1.1050 yields pips = 50.0 and pnl = 5.00 and raises the balance by exactly
5.00 (10000 → 10005); a second close on the same id fails (the source
returns None, the spec's NotFoundError) and leaves the journal unchanged. -/
theorem ledger_round_trip :
    ((((initJournal 10000).open_trade ("EURUSD") Direction.BUY (11/10) (1/100)).2.close_trade
        ((initJournal 10000).open_trade ("EURUSD") Direction.BUY (11/10) (1/100)).1
        (221/200) ("TP")).1.map Trade.pips = some 50) ∧
    ((((initJournal 10000).open_trade ("EURUSD") Direction.BUY (11/10) (1/100)).2.close_trade
        ((initJournal 10000).open_trade ("EURUSD") Direction.BUY (11/10) (1/100)).1
        (221/200) ("TP")).1.map Trade.pnl = some 5) ∧
    ((((initJournal 10000).open_trade ("EURUSD") Direction.BUY (11/10) (1/100)).2.close_trade
        ((initJournal 10000).open_trade ("EURUSD") Direction.BUY (11/10) (1/100)).1
        (221/200) ("TP")).2.balance = 10005) ∧
    (((((initJournal 10000).open_trade ("EURUSD") Direction.BUY (11/10) (1/100)).2.close_trade
        ((initJournal 10000).open_trade ("EURUSD") Direction.BUY (11/10) (1/100)).1
        (221/200) ("TP")).2.close_trade 1 (221/200) ("TP")) =
      (none, (((initJournal 10000).open_trade ("EURUSD") Direction.BUY (11/10) (1/100)).2.close_trade
        ((initJournal 10000).open_trade ("EURUSD") Direction.BUY (11/10) (1/100)).1
        (221/200) ("TP")).2)) := by
  refine ⟨?_, ?_, ?_, ?_⟩ <;>
    (norm_num [Journal.open_trade, Journal.close_trade, closeFirst, closeCalc,
        newTrade, initJournal, pyRound, pyRoundInt] <;> simp)

/-- Counterexample to claim C3: starting from a journal that already holds an
OPEN (EURUSD, BUY) trade, `open_trade` for the same pair and direction does
not fail — it appends a second OPEN (EURUSD, BUY) trade. -/
theorem open_trade_no_conflict_cex :
    ((((initJournal 10000).open_trade ("EURUSD") Direction.BUY (11/10) (1/100)).2.trades.filter
        (fun t => decide (t.status = Status.OPEN ∧ t.pair = "EURUSD" ∧
          t.direction = Direction.BUY))).length = 1) ∧
    (((((initJournal 10000).open_trade ("EURUSD") Direction.BUY (11/10) (1/100)).2.open_trade
        ("EURUSD") Direction.BUY (6/5) (1/100)).2.trades.filter
        (fun t => decide (t.status = Status.OPEN ∧ t.pair = "EURUSD" ∧
          t.direction = Direction.BUY))).length = 2) := by
  refine ⟨?_, ?_⟩ <;> decide

/-- Claim C3 (amended): `open_trade` performs no conflict check: for every
journal state it succeeds and appends exactly one new OPEN trade, so the
count of OPEN trades for the requested (pair, direction) always grows by
one — duplicates included.  (The at-most-one-open policy lives only in
`VirtualTrader.on_signal`.) -/
theorem open_trade_always_appends (j : Journal) (p : String) (d : Direction)
    (e l : ℚ) :
    ((j.open_trade p d e l).2.trades =
      j.trades ++ [newTrade j.counter p d e l]) ∧
    (((j.open_trade p d e l).2.trades.filter
        (fun t => decide (t.status = Status.OPEN ∧ t.pair = p ∧
          t.direction = d))).length =
      (j.trades.filter (fun t => decide (t.status = Status.OPEN ∧ t.pair = p ∧
          t.direction = d))).length + 1) := by
  constructor
  · rfl
  · simp [Journal.open_trade, List.filter_append, newTrade]

-- ==================== VirtualTrader (C4) ====================

/-- The three signal values `VirtualTrader.on_signal` distinguishes. -/
inductive Signal where
  | HOLD
  | BUY
  | SELL
deriving DecidableEq, Repr

/-- `VirtualTrader.on_signal` (src/trading_journal.py lines 274–314), state
effect only (the returned trade id is unused by every claim): HOLD is a
no-op; BUY closes every OPEN SELL trade on the pair with reason REVERSED and
then opens a BUY (lot 0.01) unless the pair's open-trade snapshot already
holds a BUY; SELL is symmetric.  `pair_trades` is computed once, before the
closes, exactly as in the source. -/
def on_signal (j : Journal) (pair : String) (signal : Signal) (price : ℚ) :
    Journal :=
  match signal with
  | Signal.HOLD => j
  | Signal.BUY =>
    let pairT := j.get_open_trades.filter (fun t => decide (t.pair = pair))
    let j1 := pairT.foldl (fun st t =>
      if t.direction = Direction.SELL then
        (st.close_trade t.id price ("REVERSED")).2
      else st) j
    if ¬ pairT.any (fun t => decide (t.direction = Direction.BUY)) then
      (j1.open_trade pair Direction.BUY price (1/100)).2
    else j1
  | Signal.SELL =>
    let pairT := j.get_open_trades.filter (fun t => decide (t.pair = pair))
    let j1 := pairT.foldl (fun st t =>
      if t.direction = Direction.BUY then
        (st.close_trade t.id price ("REVERSED")).2
      else st) j
    if ¬ pairT.any (fun t => decide (t.direction = Direction.SELL)) then
      (j1.open_trade pair Direction.SELL price (1/100)).2
    else j1

/-- The OPEN trades of a journal for one pair (the `pair_trades` snapshot of
`on_signal`, expressed as a single filter). -/
def openForPair (j : Journal) (p : String) : List Trade :=
  j.trades.filter (fun t => decide (t.status = Status.OPEN ∧ t.pair = p))

/-- Any two OPEN trades in the list have different ids. -/
def opensDistinct (ts : List Trade) : Prop :=
  ts.Pairwise (fun a b =>
    a.status = Status.OPEN → b.status = Status.OPEN → a.id ≠ b.id)

/-- The inductive invariant maintained by `on_signal`: every OPEN trade's id
is below the counter, OPEN trades have pairwise distinct ids, and each pair
has at most one OPEN trade. -/
def InvJ (j : Journal) : Prop :=
  (∀ t ∈ j.trades, t.status = Status.OPEN → t.id < j.counter) ∧
  opensDistinct j.trades ∧
  ∀ p, (openForPair j p).length ≤ 1

theorem pairT_eq (j : Journal) (p : String) :
    j.get_open_trades.filter (fun t => decide (t.pair = p)) = openForPair j p := by
  unfold Journal.get_open_trades openForPair
  rw [List.filter_filter]
  apply List.filter_congr
  intro t _
  by_cases h1 : t.status = Status.OPEN <;> by_cases h2 : t.pair = p <;>
    simp [h1, h2]

theorem openForPair_mem (j : Journal) (p : String) (t : Trade)
    (h : t ∈ openForPair j p) :
    t ∈ j.trades ∧ t.status = Status.OPEN ∧ t.pair = p := by
  unfold openForPair at h
  rcases List.mem_filter.mp h with ⟨h1, h2⟩
  exact ⟨h1, of_decide_eq_true h2⟩

theorem eq_singleton_of_mem_of_length_le_one {α : Type} {l : List α} {t : α}
    (hmem : t ∈ l) (hlen : l.length ≤ 1) : l = [t] := by
  cases l with
  | nil => simp at hmem
  | cons a as =>
    have : as = [] := by
      have := List.length_cons a as ▸ hlen
      exact List.length_eq_zero.mp (by omega)
    subst this
    rcases List.mem_singleton.mp hmem with rfl
    rfl

theorem closeFirst_found (px : ℚ) (r : String) :
    ∀ (ts : List Trade) (t : Trade), opensDistinct ts → t ∈ ts →
      t.status = Status.OPEN →
      ∃ l1 l2, ts = l1 ++ t :: l2 ∧
        closeFirst t.id px r ts =
          some (closeCalc t px r, l1 ++ closeCalc t px r :: l2) := by
  intro ts
  induction ts with
  | nil => intro t _ h; simp at h
  | cons hd tl ih =>
    intro t hdist hmem hopen
    rw [opensDistinct, List.pairwise_cons] at hdist
    rcases List.mem_cons.mp hmem with heq | hmem2
    · subst heq
      refine ⟨[], tl, by simp, ?_⟩
      simp [closeFirst, hopen]
    · have hne : ¬(hd.id = t.id ∧ hd.status = Status.OPEN) := by
        rintro ⟨hid, hop⟩
        exact (hdist.1 t hmem2 hop hopen) hid
      obtain ⟨l1, l2, hts, hcf⟩ := ih t hdist.2 hmem2 hopen
      refine ⟨hd :: l1, l2, by simp [hts], ?_⟩
      simp only [closeFirst, if_neg hne, hcf, List.cons_append]

theorem close_trade_found (j : Journal) (t : Trade) (px : ℚ) (r : String)
    (hdist : opensDistinct j.trades) (hmem : t ∈ j.trades)
    (hopen : t.status = Status.OPEN) :
    ∃ l1 l2, j.trades = l1 ++ t :: l2 ∧
      (j.close_trade t.id px r).2 =
        { trades := l1 ++ closeCalc t px r :: l2,
          balance := j.balance + (closeCalc t px r).pnl,
          counter := j.counter } := by
  obtain ⟨l1, l2, hts, hcf⟩ := closeFirst_found px r j.trades t hdist hmem hopen
  exact ⟨l1, l2, hts, by simp [Journal.close_trade, hcf]⟩

theorem opensDistinct_middle (l1 l2 : List Trade) (t cc : Trade)
    (hcc : cc.status = Status.CLOSED)
    (h : opensDistinct (l1 ++ t :: l2)) : opensDistinct (l1 ++ cc :: l2) := by
  unfold opensDistinct at h ⊢
  rw [List.pairwise_append] at h ⊢
  obtain ⟨h1, h2, h3⟩ := h
  rw [List.pairwise_cons] at h2 ⊢
  refine ⟨h1, ⟨?_, h2.2⟩, ?_⟩
  · intro b _ hco
    rw [hcc] at hco
    exact absurd hco (by simp)
  · intro a ha b hb
    rcases List.mem_cons.mp hb with rfl | hb2
    · intro _ hco
      rw [hcc] at hco
      exact absurd hco (by simp)
    · exact h3 a ha b (List.mem_cons_of_mem t hb2)

theorem opensDistinct_append_open (ts : List Trade) (nt : Trade)
    (hdist : opensDistinct ts)
    (hlt : ∀ x ∈ ts, x.status = Status.OPEN → x.id < nt.id) :
    opensDistinct (ts ++ [nt]) := by
  unfold opensDistinct at hdist ⊢
  rw [List.pairwise_append]
  refine ⟨hdist, List.pairwise_singleton _ _, ?_⟩
  intro a ha b hb hao _
  rcases List.mem_singleton.mp hb with rfl
  exact Nat.ne_of_lt (hlt a ha hao)

theorem invJ_after_open_empty (j : Journal) (pair : String) (d : Direction)
    (price : ℚ) (hinv : InvJ j) (hempty : openForPair j pair = []) :
    InvJ ((j.open_trade pair d price (1/100)).2) := by
  obtain ⟨hid, hdist, hcount⟩ := hinv
  refine ⟨?_, ?_, ?_⟩
  · intro t ht hto
    simp only [Journal.open_trade] at ht ⊢
    rcases List.mem_append.mp ht with h1 | h2
    · exact Nat.lt_succ_of_lt (hid t h1 hto)
    · rcases List.mem_singleton.mp h2 with rfl
      simp [newTrade]
  · simp only [Journal.open_trade]
    apply opensDistinct_append_open _ _ hdist
    intro x hx hxo
    simpa [newTrade] using hid x hx hxo
  · intro p
    simp only [Journal.open_trade, openForPair, List.filter_append]
    by_cases hp : pair = p
    · subst hp
      have h0 : List.filter
          (fun t => decide (t.status = Status.OPEN ∧ t.pair = pair)) j.trades = [] := hempty
      rw [h0]
      simp [newTrade]
    · have h1 : List.filter
          (fun t => decide (t.status = Status.OPEN ∧ t.pair = p))
          [newTrade j.counter pair d price (1/100)] = [] := by
        simp [newTrade, hp]
      rw [h1]
      simpa [openForPair] using hcount p

theorem invJ_after_close_open (j : Journal) (pair : String) (price : ℚ)
    (d : Direction) (t : Trade) (hinv : InvJ j)
    (hl : openForPair j pair = [t]) :
    InvJ ((((j.close_trade t.id price ("REVERSED")).2).open_trade pair d price (1/100)).2) ∧
    openForPair ((((j.close_trade t.id price ("REVERSED")).2).open_trade pair d price (1/100)).2) pair
      = [newTrade j.counter pair d price (1/100)] ∧
    closeCalc t price ("REVERSED") ∈
      ((((j.close_trade t.id price ("REVERSED")).2).open_trade pair d price (1/100)).2).trades ∧
    newTrade j.counter pair d price (1/100) ∈
      ((((j.close_trade t.id price ("REVERSED")).2).open_trade pair d price (1/100)).2).trades := by
  obtain ⟨hid, hdist, hcount⟩ := hinv
  have htmem0 : t ∈ openForPair j pair := by
    rw [hl]; exact List.mem_singleton_self t
  obtain ⟨htj, hto, htp⟩ := openForPair_mem j pair t htmem0
  obtain ⟨l1, l2, hts, hj1⟩ := close_trade_found j t price ("REVERSED") hdist htj hto
  have hccs : (closeCalc t price ("REVERSED")).status = Status.CLOSED := rfl
  have hl2 : l1.filter (fun x => decide (x.status = Status.OPEN ∧ x.pair = pair)) ++
      t :: l2.filter (fun x => decide (x.status = Status.OPEN ∧ x.pair = pair)) = [t] := by
    have h0 := hl
    unfold openForPair at h0
    rw [hts] at h0
    simpa [List.filter_append, List.filter_cons, hto, htp] using h0
  have hlen := congrArg List.length hl2
  simp only [List.length_append, List.length_cons, List.length_nil] at hlen
  have hf1 : l1.filter (fun x => decide (x.status = Status.OPEN ∧ x.pair = pair)) = [] :=
    List.length_eq_zero.mp (by omega)
  have hf2 : l2.filter (fun x => decide (x.status = Status.OPEN ∧ x.pair = pair)) = [] :=
    List.length_eq_zero.mp (by omega)
  have hle : ∀ (p : String),
      (l1.filter (fun x => decide (x.status = Status.OPEN ∧ x.pair = p))).length +
      (l2.filter (fun x => decide (x.status = Status.OPEN ∧ x.pair = p))).length ≤ 1 := by
    intro p
    have h0 := hcount p
    unfold openForPair at h0
    rw [hts, List.filter_append, List.filter_cons] at h0
    by_cases hpt : (t.status = Status.OPEN ∧ t.pair = p)
    · simp [hpt, List.length_append] at h0 ⊢
      omega
    · simp [hpt, List.length_append] at h0 ⊢
      omega
  have hres : (((j.close_trade t.id price ("REVERSED")).2).open_trade pair d price (1/100)).2 =
      { trades := (l1 ++ closeCalc t price ("REVERSED") :: l2) ++
          [newTrade j.counter pair d price (1/100)],
        balance := j.balance + (closeCalc t price ("REVERSED")).pnl,
        counter := j.counter + 1 } := by
    rw [hj1]; rfl
  refine ⟨⟨?_, ?_, ?_⟩, ?_, ?_, ?_⟩
  · -- id bound
    intro x hx hxo
    rw [hres] at hx ⊢
    simp only at hx ⊢
    rcases List.mem_append.mp hx with hx1 | hx2
    · rcases List.mem_append.mp hx1 with hx3 | hx4
      · have : x ∈ j.trades := by
          rw [hts]; exact List.mem_append_left _ hx3
        exact Nat.lt_succ_of_lt (hid x this hxo)
      · rcases List.mem_cons.mp hx4 with rfl | hx5
        · rw [hccs] at hxo; exact absurd hxo (by simp)
        · have : x ∈ j.trades := by
            rw [hts]
            exact List.mem_append_right _ (List.mem_cons_of_mem t hx5)
          exact Nat.lt_succ_of_lt (hid x this hxo)
    · rcases List.mem_singleton.mp hx2 with rfl
      simp [newTrade]
  · -- opensDistinct
    rw [hres]
    simp only []
    apply opensDistinct_append_open
    · exact opensDistinct_middle l1 l2 t _ hccs (hts ▸ hdist)
    · intro x hx hxo
      have hnid : (newTrade j.counter pair d price (1/100)).id = j.counter := rfl
      rw [hnid]
      rcases List.mem_append.mp hx with hx3 | hx4
      · have : x ∈ j.trades := by
          rw [hts]; exact List.mem_append_left _ hx3
        exact hid x this hxo
      · rcases List.mem_cons.mp hx4 with rfl | hx5
        · rw [hccs] at hxo; exact absurd hxo (by simp)
        · have : x ∈ j.trades := by
            rw [hts]
            exact List.mem_append_right _ (List.mem_cons_of_mem t hx5)
          exact hid x this hxo
  · -- per-pair count
    intro p
    rw [hres]
    unfold openForPair
    simp only [List.filter_append, List.filter_cons, List.length_append]
    by_cases hp : pair = p
    · subst hp
      rw [hf1, hf2]
      simp [hccs, newTrade]
    · have hnf : (decide ((newTrade j.counter pair d price (1/100)).status = Status.OPEN ∧
          (newTrade j.counter pair d price (1/100)).pair = p)) = false := by
        simp [newTrade, hp]
      have h2 : (decide ((closeCalc t price ("REVERSED")).status = Status.OPEN ∧
          (closeCalc t price ("REVERSED")).pair = p)) = false := by
        simp [hccs]
      rw [h2, hnf]
      have := hle p
      simp only [Bool.false_eq_true, if_false, List.filter_nil, List.length_nil]
      omega
  · -- openForPair at pair is the fresh trade
    rw [hres]
    unfold openForPair
    simp only [List.filter_append, List.filter_cons]
    rw [hf1, hf2]
    simp [hccs, newTrade]
  · -- the closed trade is in the final trades
    rw [hres]
    simp
  · -- the fresh open trade is in the final trades
    rw [hres]
    simp

theorem onSignal_InvJ (j : Journal) (pair : String) (sig : Signal) (price : ℚ)
    (hinv : InvJ j) : InvJ (on_signal j pair sig price) := by
  cases sig with
  | HOLD => exact hinv
  | BUY =>
    simp only [on_signal, pairT_eq]
    cases hl : openForPair j pair with
    | nil =>
      simp only [hl, List.foldl_nil, List.any_nil, Bool.not_false, if_pos]
      exact invJ_after_open_empty j pair Direction.BUY price hinv hl
    | cons t rest =>
      have hr : rest = [] := by
        have hc := hinv.2.2 pair
        rw [hl] at hc
        simp only [List.length_cons] at hc
        exact List.length_eq_zero.mp (by omega)
      subst hr
      have htmem : t ∈ openForPair j pair := by
        rw [hl]; exact List.mem_singleton_self t
      obtain ⟨htj, hto, htp⟩ := openForPair_mem j pair t htmem
      by_cases hdir : t.direction = Direction.SELL
      · simpa [hdir] using (invJ_after_close_open j pair price Direction.BUY t hinv hl).1
      · have hdirb : t.direction = Direction.BUY := by
          cases hdc : t.direction
          · rfl
          · exact absurd hdc hdir
        simp [hdirb]
        exact hinv
  | SELL =>
    simp only [on_signal, pairT_eq]
    cases hl : openForPair j pair with
    | nil =>
      simp only [hl, List.foldl_nil, List.any_nil, Bool.not_false, if_pos]
      exact invJ_after_open_empty j pair Direction.SELL price hinv hl
    | cons t rest =>
      have hr : rest = [] := by
        have hc := hinv.2.2 pair
        rw [hl] at hc
        simp only [List.length_cons] at hc
        exact List.length_eq_zero.mp (by omega)
      subst hr
      have htmem : t ∈ openForPair j pair := by
        rw [hl]; exact List.mem_singleton_self t
      obtain ⟨htj, hto, htp⟩ := openForPair_mem j pair t htmem
      by_cases hdir : t.direction = Direction.BUY
      · simpa [hdir] using (invJ_after_close_open j pair price Direction.SELL t hinv hl).1
      · have hdirb : t.direction = Direction.SELL := by
          cases hdc : t.direction
          · exact absurd hdc hdir
          · rfl
        simp [hdirb]
        exact hinv

/-- Run a trace of incoming signals through `VirtualTrader.on_signal`. -/
def runTrace (j0 : Journal) (trace : List (String × Signal × ℚ)) : Journal :=
  trace.foldl (fun j x => on_signal j x.1 x.2.1 x.2.2) j0

theorem runTrace_InvJ :
    ∀ (trace : List (String × Signal × ℚ)) (j0 : Journal),
      InvJ j0 → InvJ (runTrace j0 trace) := by
  intro trace
  induction trace with
  | nil => intro j0 h; exact h
  | cons x xs ih =>
    intro j0 h
    exact ih (on_signal j0 x.1 x.2.1 x.2.2) (onSignal_InvJ j0 x.1 x.2.1 x.2.2 h)

theorem noOpen_opensDistinct :
    ∀ (ts : List Trade), (∀ t ∈ ts, t.status ≠ Status.OPEN) → opensDistinct ts := by
  intro ts
  induction ts with
  | nil => intro _; exact List.Pairwise.nil
  | cons a as ih =>
    intro h
    refine List.Pairwise.cons ?_ (ih fun t ht => h t (List.mem_cons_of_mem a ht))
    intro b _ hao
    exact absurd hao (h a (List.mem_cons_self a as))

theorem noOpen_InvJ (j : Journal)
    (h : ∀ t ∈ j.trades, t.status ≠ Status.OPEN) : InvJ j := by
  refine ⟨?_, noOpen_opensDistinct _ h, ?_⟩
  · intro t ht hto
    exact absurd hto (h t ht)
  · intro p
    have hnil : openForPair j p = [] := by
      unfold openForPair
      refine List.filter_eq_nil.mpr ?_
      intro t ht
      simp [h t ht]
    rw [hnil]
    simp

theorem onSignal_sell_over_buy (j : Journal) (pair : String) (price : ℚ)
    (hinv : InvJ j)
    (hbuy : ∃ t ∈ j.trades,
      t.pair = pair ∧ t.direction = Direction.BUY ∧ t.status = Status.OPEN) :
    (openForPair (on_signal j pair Signal.SELL price) pair).length = 1 ∧
    (∃ t2 ∈ (on_signal j pair Signal.SELL price).trades,
       t2.pair = pair ∧ t2.status = Status.OPEN ∧ t2.direction = Direction.SELL) ∧
    (∃ t3 ∈ (on_signal j pair Signal.SELL price).trades,
       t3.pair = pair ∧ t3.direction = Direction.BUY ∧ t3.status = Status.CLOSED ∧
       t3.exit_reason = some ("REVERSED") ∧ t3.exit_price = some price) := by
  obtain ⟨t, htj, htp, htd, hto⟩ := hbuy
  have htm : t ∈ openForPair j pair := by
    unfold openForPair
    refine List.mem_filter.mpr ⟨htj, ?_⟩
    simp [hto, htp]
  have hl : openForPair j pair = [t] :=
    eq_singleton_of_mem_of_length_le_one htm (hinv.2.2 pair)
  have heq : on_signal j pair Signal.SELL price =
      (((j.close_trade t.id price ("REVERSED")).2).open_trade pair
        Direction.SELL price (1/100)).2 := by
    simp only [on_signal, pairT_eq]
    rw [hl]
    simp [htd]
  obtain ⟨hinv2, hop, hmcc, hmnt⟩ :=
    invJ_after_close_open j pair price Direction.SELL t hinv hl
  rw [heq]
  refine ⟨?_, ?_, ?_⟩
  · rw [hop]; rfl
  · exact ⟨newTrade j.counter pair Direction.SELL price (1/100), hmnt, rfl, rfl, rfl⟩
  · exact ⟨closeCalc t price ("REVERSED"), hmcc, htp, htd, rfl, rfl, rfl⟩

/-- Claim C4: along any trace of `on_signal` calls from a ledger with no
open trades, at most one OPEN trade exists per pair after each call; a SELL
signal arriving while an OPEN BUY exists on the pair closes that BUY with
exit reason REVERSED and opens a new SELL, leaving exactly one OPEN trade
for the pair; and a HOLD signal changes nothing. -/
theorem virtual_trader_reversal_invariant
    (j0 : Journal) (trace : List (String × Signal × ℚ))
    (h0 : ∀ t ∈ j0.trades, t.status ≠ Status.OPEN) :
    (∀ p, (openForPair (runTrace j0 trace) p).length ≤ 1) ∧
    (∀ (pair : String) (price : ℚ),
      (∃ t ∈ (runTrace j0 trace).trades,
         t.pair = pair ∧ t.direction = Direction.BUY ∧ t.status = Status.OPEN) →
      (openForPair (on_signal (runTrace j0 trace) pair Signal.SELL price) pair).length = 1 ∧
      (∃ t2 ∈ (on_signal (runTrace j0 trace) pair Signal.SELL price).trades,
         t2.pair = pair ∧ t2.status = Status.OPEN ∧ t2.direction = Direction.SELL) ∧
      (∃ t3 ∈ (on_signal (runTrace j0 trace) pair Signal.SELL price).trades,
         t3.pair = pair ∧ t3.direction = Direction.BUY ∧ t3.status = Status.CLOSED ∧
         t3.exit_reason = some ("REVERSED") ∧ t3.exit_price = some price)) ∧
    (∀ (j : Journal) (p : String) (px : ℚ), on_signal j p Signal.HOLD px = j) := by
  have hinv : InvJ (runTrace j0 trace) := runTrace_InvJ trace j0 (noOpen_InvJ j0 h0)
  refine ⟨hinv.2.2, ?_, ?_⟩
  · intro pair price hbuy
    exact onSignal_sell_over_buy (runTrace j0 trace) pair price hinv hbuy
  · intro jj p px
    rfl

/-- Witness for C4 at a concrete trace: a fresh journal, one BUY signal on
EURUSD, then a SELL signal while that BUY is open: exactly one OPEN trade
remains for EURUSD. -/
theorem virtual_trader_reversal_invariant_witness :
    (∀ t ∈ (initJournal 10000).trades, t.status ≠ Status.OPEN) ∧
    (openForPair (on_signal
        (runTrace (initJournal 10000) [(("EURUSD"), Signal.BUY, 11/10)])
        ("EURUSD") Signal.SELL (6/5)) ("EURUSD")).length = 1 := by
  have h0 : ∀ t ∈ (initJournal 10000).trades, t.status ≠ Status.OPEN := by
    simp [initJournal]
  refine ⟨h0, ?_⟩
  have H := virtual_trader_reversal_invariant (initJournal 10000)
    [(("EURUSD"), Signal.BUY, 11/10)] h0
  refine (H.2.1 ("EURUSD") (6/5) ?_).1
  refine ⟨newTrade 1 ("EURUSD") Direction.BUY (11/10) (1/100), ?_, rfl, rfl, rfl⟩
  show _ ∈ (runTrace (initJournal 10000) [(("EURUSD"), Signal.BUY, (11/10 : ℚ))]).trades
  simp [runTrace, on_signal, initJournal, Journal.get_open_trades, Journal.open_trade]

-- ==================== Analyzer: RSI (C5) ====================

/-- A pandas/numpy float value: NaN, the two infinities, or a finite value
(idealised as a rational).  Only the operations the RSI pipeline performs
are modelled, with IEEE-754 propagation. -/
inductive PF where
  | nan
  | pinf
  | ninf
  | fin (q : ℚ)
deriving DecidableEq, Repr

/-- IEEE addition on `PF`. -/
def PF.add : PF → PF → PF
  | PF.nan, _ => PF.nan
  | _, PF.nan => PF.nan
  | PF.pinf, PF.ninf => PF.nan
  | PF.ninf, PF.pinf => PF.nan
  | PF.pinf, _ => PF.pinf
  | _, PF.pinf => PF.pinf
  | PF.ninf, _ => PF.ninf
  | _, PF.ninf => PF.ninf
  | PF.fin a, PF.fin b => PF.fin (a + b)

/-- IEEE subtraction on `PF`. -/
def PF.sub : PF → PF → PF
  | PF.nan, _ => PF.nan
  | _, PF.nan => PF.nan
  | PF.pinf, PF.pinf => PF.nan
  | PF.ninf, PF.ninf => PF.nan
  | PF.pinf, _ => PF.pinf
  | _, PF.pinf => PF.ninf
  | PF.ninf, _ => PF.ninf
  | _, PF.ninf => PF.pinf
  | PF.fin a, PF.fin b => PF.fin (a - b)

/-- IEEE division on `PF` (finite / 0 gives a signed infinity, 0 / 0 gives
NaN — numpy's behaviour for `Series.div`). -/
def PF.div : PF → PF → PF
  | PF.nan, _ => PF.nan
  | _, PF.nan => PF.nan
  | PF.pinf, PF.pinf => PF.nan
  | PF.pinf, PF.ninf => PF.nan
  | PF.ninf, PF.pinf => PF.nan
  | PF.ninf, PF.ninf => PF.nan
  | PF.pinf, PF.fin b => if b < 0 then PF.ninf else PF.pinf
  | PF.ninf, PF.fin b => if b < 0 then PF.pinf else PF.ninf
  | PF.fin _, PF.pinf => PF.fin 0
  | PF.fin _, PF.ninf => PF.fin 0
  | PF.fin a, PF.fin b =>
    if b = 0 then (if a = 0 then PF.nan else if 0 < a then PF.pinf else PF.ninf)
    else PF.fin (a / b)

/-- `close.diff()`: NaN in the first slot, consecutive differences after
(`src/analyzer.py` line 273). -/
def seriesDiff (xs : List ℚ) : List PF :=
  match xs with
  | [] => []
  | x :: rest => PF.nan :: List.zipWith (fun a b => PF.fin (b - a)) (x :: rest) rest

/-- `delta.where(delta > 0, 0)` (line 274): keep positive differences, put 0
elsewhere.  `NaN > 0` is False in pandas, so the leading NaN becomes 0. -/
def gainsOf (close : List ℚ) : List ℚ :=
  (seriesDiff close).map (fun x =>
    match x with
    | PF.fin d => if 0 < d then d else 0
    | _ => 0)

/-- `-(delta.where(delta < 0, 0))` (line 275): negated negative differences,
0 elsewhere (again the leading NaN is masked to 0 before negation). -/
def lossesOf (close : List ℚ) : List ℚ :=
  (seriesDiff close).map (fun x =>
    match x with
    | PF.fin d => if d < 0 then -d else 0
    | _ => 0)

/-- `.rolling(window=p).mean()` on a NaN-free series: NaN until a full
window of `p` observations exists, then the mean of the last `p` values. -/
def rollingMean (p : ℕ) (xs : List ℚ) : List PF :=
  (List.range xs.length).map (fun i =>
    if i + 1 < p then PF.nan
    else PF.fin ((((xs.take (i + 1)).drop (i + 1 - p)).sum) / p))

/-- `ForexAnalyzer.calculate_rsi` (src/analyzer.py lines 271–280):
`rs = gain / loss`, `rsi = 100 - 100/(1 + rs)` elementwise, then
`rsi.iloc[-1] if not rsi.empty else 50`. -/
def calculate_rsi (close : List ℚ) (period : ℕ) : PF :=
  let gain := rollingMean period (gainsOf close)
  let loss := rollingMean period (lossesOf close)
  let rs := List.zipWith PF.div gain loss
  let rsi := rs.map (fun r =>
    PF.sub (PF.fin 100) (PF.div (PF.fin 100) (PF.add (PF.fin 1) r)))
  match rsi.getLast? with
  | some v => v
  | none => PF.fin 50

/-- Mean of the last `p` entries of a list (divided by `p`). -/
def lastMean (p : ℕ) (xs : List ℚ) : ℚ :=
  ((xs.drop (xs.length - p)).sum) / p

/-- The final rolling gain mean used by `calculate_rsi`. -/
def gainMeanLast (close : List ℚ) (p : ℕ) : ℚ :=
  lastMean p (gainsOf close)

/-- The final rolling loss mean used by `calculate_rsi`. -/
def lossMeanLast (close : List ℚ) (p : ℕ) : ℚ :=
  lastMean p (lossesOf close)

theorem seriesDiff_length (xs : List ℚ) : (seriesDiff xs).length = xs.length := by
  cases xs with
  | nil => rfl
  | cons x rest =>
    simp [seriesDiff]

theorem gainsOf_length (close : List ℚ) : (gainsOf close).length = close.length := by
  simp [gainsOf, seriesDiff_length]

theorem lossesOf_length (close : List ℚ) : (lossesOf close).length = close.length := by
  simp [lossesOf, seriesDiff_length]

theorem rollingMean_length (p : ℕ) (xs : List ℚ) :
    (rollingMean p xs).length = xs.length := by
  simp [rollingMean]

theorem calculate_rsi_nil (period : ℕ) : calculate_rsi [] period = PF.fin 50 := rfl

theorem rollingMean_last (p : ℕ) (xs : List ℚ) (h0 : 0 < xs.length) :
    (rollingMean p xs)[xs.length - 1]? =
      some (if xs.length - 1 + 1 < p then PF.nan
        else PF.fin ((((xs.take (xs.length - 1 + 1)).drop (xs.length - 1 + 1 - p)).sum) / p)) := by
  unfold rollingMean
  rw [List.getElem?_map, List.getElem?_range (by omega)]
  rfl

theorem calculate_rsi_eval (close : List ℚ) (period : ℕ)
    (hp : 0 < period) (hn : period ≤ close.length) :
    calculate_rsi close period =
      PF.sub (PF.fin 100) (PF.div (PF.fin 100) (PF.add (PF.fin 1)
        (PF.div (PF.fin (gainMeanLast close period))
                (PF.fin (lossMeanLast close period))))) := by
  have h0 : 0 < close.length := lt_of_lt_of_le hp hn
  have hg := gainsOf_length close
  have hlo := lossesOf_length close
  have hsucc : close.length - 1 + 1 = close.length := Nat.succ_pred_eq_of_pos h0
  have htakeg : (gainsOf close).take close.length = gainsOf close := by
    rw [← hg]; exact List.take_length _
  have htakel : (lossesOf close).take close.length = lossesOf close := by
    rw [← hlo]; exact List.take_length _
  have hgl : (rollingMean period (gainsOf close))[close.length - 1]? =
      some (PF.fin (gainMeanLast close period)) := by
    rw [show (rollingMean period (gainsOf close))[close.length - 1]? =
        (rollingMean period (gainsOf close))[(gainsOf close).length - 1]? by rw [hg]]
    rw [rollingMean_last period (gainsOf close) (by omega)]
    rw [hg, hsucc, htakeg]
    rw [if_neg (by omega)]
    unfold gainMeanLast lastMean
    rw [hg]
  have hll : (rollingMean period (lossesOf close))[close.length - 1]? =
      some (PF.fin (lossMeanLast close period)) := by
    rw [show (rollingMean period (lossesOf close))[close.length - 1]? =
        (rollingMean period (lossesOf close))[(lossesOf close).length - 1]? by rw [hlo]]
    rw [rollingMean_last period (lossesOf close) (by omega)]
    rw [hlo, hsucc, htakel]
    rw [if_neg (by omega)]
    unfold lossMeanLast lastMean
    rw [hlo]
  simp only [calculate_rsi]
  rw [List.getLast?_eq_getElem?]
  simp only [List.length_map, List.length_zipWith, rollingMean_length,
    hg, hlo, Nat.min_self]
  rw [List.getElem?_map]
  rw [show (List.zipWith PF.div
      (rollingMean period (gainsOf close))
      (rollingMean period (lossesOf close)))[close.length - 1]? =
      some (PF.div (PF.fin (gainMeanLast close period))
        (PF.fin (lossMeanLast close period))) from ?_]
  · rfl
  · rw [List.getElem?_zipWith', hgl, hll]
    rfl

theorem calculate_rsi_short (close : List ℚ) (period : ℕ)
    (h0 : 0 < close.length) (hn : close.length < period) :
    calculate_rsi close period = PF.nan := by
  have hg := gainsOf_length close
  have hlo := lossesOf_length close
  have hgl : (rollingMean period (gainsOf close))[close.length - 1]? = some PF.nan := by
    rw [show (rollingMean period (gainsOf close))[close.length - 1]? =
        (rollingMean period (gainsOf close))[(gainsOf close).length - 1]? by rw [hg]]
    rw [rollingMean_last period (gainsOf close) (by omega)]
    rw [if_pos (by omega)]
  have hll : (rollingMean period (lossesOf close))[close.length - 1]? = some PF.nan := by
    rw [show (rollingMean period (lossesOf close))[close.length - 1]? =
        (rollingMean period (lossesOf close))[(lossesOf close).length - 1]? by rw [hlo]]
    rw [rollingMean_last period (lossesOf close) (by omega)]
    rw [if_pos (by omega)]
  simp only [calculate_rsi]
  rw [List.getLast?_eq_getElem?]
  simp only [List.length_map, List.length_zipWith, rollingMean_length,
    hg, hlo, Nat.min_self]
  rw [List.getElem?_map]
  rw [show (List.zipWith PF.div
      (rollingMean period (gainsOf close))
      (rollingMean period (lossesOf close)))[close.length - 1]? =
      some (PF.div PF.nan PF.nan) from ?_]
  · rfl
  · rw [List.getElem?_zipWith', hgl, hll]
    rfl

theorem gainsOf_nonneg (close : List ℚ) : ∀ x ∈ gainsOf close, 0 ≤ x := by
  intro x hx
  unfold gainsOf at hx
  rcases List.mem_map.mp hx with ⟨d, _, rfl⟩
  cases d with
  | nan => simp
  | pinf => simp
  | ninf => simp
  | fin q =>
    by_cases h : 0 < q
    · simp [h]
      linarith
    · simp [h]

theorem lossesOf_nonneg (close : List ℚ) : ∀ x ∈ lossesOf close, 0 ≤ x := by
  intro x hx
  unfold lossesOf at hx
  rcases List.mem_map.mp hx with ⟨d, _, rfl⟩
  cases d with
  | nan => simp
  | pinf => simp
  | ninf => simp
  | fin q =>
    by_cases h : q < 0
    · simp [h]
      linarith
    · simp [h]

theorem lastMean_nonneg (p : ℕ) (xs : List ℚ) (h : ∀ x ∈ xs, 0 ≤ x) :
    0 ≤ lastMean p xs := by
  unfold lastMean
  apply div_nonneg
  · apply List.sum_nonneg
    intro x hx
    exact h x (List.drop_subset _ _ hx)
  · exact Nat.cast_nonneg p

/-- Claim C5 (amended): `calculate_rsi` returns 50 only on the empty series;
on a non-empty series shorter than `period` bars it returns NaN (the rolling
window is incomplete), not 50; a series of exactly `period` bars already
returns a computed value.  With a full window: if the rolling loss mean is 0
and the gain mean positive the result is exactly 100; if both means are 0
(flat window) the result is NaN; if the loss mean is positive the result is
a finite value in [0, 100]. -/
theorem rsi_amended (close : List ℚ) (period : ℕ) (hp : 0 < period) :
    (close = [] → calculate_rsi close period = PF.fin 50) ∧
    (0 < close.length → close.length < period → calculate_rsi close period = PF.nan) ∧
    (period ≤ close.length →
      (lossMeanLast close period = 0 → 0 < gainMeanLast close period →
        calculate_rsi close period = PF.fin 100) ∧
      (lossMeanLast close period = 0 → gainMeanLast close period = 0 →
        calculate_rsi close period = PF.nan) ∧
      (0 < lossMeanLast close period →
        ∃ q, calculate_rsi close period = PF.fin q ∧ 0 ≤ q ∧ q ≤ 100)) := by
  refine ⟨?_, ?_, ?_⟩
  · intro h
    subst h
    exact calculate_rsi_nil period
  · intro h0 hn
    exact calculate_rsi_short close period h0 hn
  · intro hn
    refine ⟨?_, ?_, ?_⟩
    · intro hlm hgm
      rw [calculate_rsi_eval close period hp hn, hlm]
      have h1 : PF.div (PF.fin (gainMeanLast close period)) (PF.fin 0) = PF.pinf := by
        simp [PF.div, hgm, hgm.ne']
      rw [h1]
      norm_num [PF.add, PF.div, PF.sub]
    · intro hlm hgm
      rw [calculate_rsi_eval close period hp hn, hlm, hgm]
      norm_num [PF.add, PF.div, PF.sub]
    · intro hlm
      rw [calculate_rsi_eval close period hp hn]
      have hgm0 : 0 ≤ gainMeanLast close period :=
        lastMean_nonneg period (gainsOf close) (gainsOf_nonneg close)
      have hrs0 : 0 ≤ gainMeanLast close period / lossMeanLast close period :=
        div_nonneg hgm0 (le_of_lt hlm)
      have h1 : PF.div (PF.fin (gainMeanLast close period))
          (PF.fin (lossMeanLast close period)) =
          PF.fin (gainMeanLast close period / lossMeanLast close period) := by
        simp [PF.div, hlm.ne']
      have h3 : (1 : ℚ) + gainMeanLast close period / lossMeanLast close period ≠ 0 := by
        linarith
      have h4 : PF.div (PF.fin 100)
          (PF.fin (1 + gainMeanLast close period / lossMeanLast close period)) =
          PF.fin (100 / (1 + gainMeanLast close period / lossMeanLast close period)) := by
        simp [PF.div, h3]
      rw [h1]
      rw [show PF.add (PF.fin 1)
          (PF.fin (gainMeanLast close period / lossMeanLast close period)) =
          PF.fin (1 + gainMeanLast close period / lossMeanLast close period) from rfl]
      rw [h4]
      refine ⟨100 - 100 / (1 + gainMeanLast close period / lossMeanLast close period),
        rfl, ?_, ?_⟩
      · have hle : 100 / (1 + gainMeanLast close period / lossMeanLast close period) ≤ 100 :=
          div_le_self (by norm_num) (by linarith)
        linarith
      · have hge : 0 ≤ 100 / (1 + gainMeanLast close period / lossMeanLast close period) := by
          positivity
        linarith

/-- Counterexample to claim C5: on the flat 15-bar series [1,…,1] the
rolling loss mean is 0 yet `calculate_rsi` returns NaN — not 100 and not a
value in [0,100]; and on the strictly increasing 14-bar series [1,…,14]
(fewer than period+1 = 15 bars) it returns 100, not the neutral 50. -/
theorem rsi_claim_cex :
    calculate_rsi [1, 1, 1, 1, 1, 1, 1, 1, 1, 1, 1, 1, 1, 1, 1] 14 = PF.nan ∧
    lossMeanLast [1, 1, 1, 1, 1, 1, 1, 1, 1, 1, 1, 1, 1, 1, 1] 14 = 0 ∧
    calculate_rsi [1, 2, 3, 4, 5, 6, 7, 8, 9, 10, 11, 12, 13, 14] 14 = PF.fin 100 := by
  have hgm1 : gainMeanLast [1, 1, 1, 1, 1, 1, 1, 1, 1, 1, 1, 1, 1, 1, 1] 14 = 0 := by
    norm_num [gainMeanLast, lastMean, gainsOf, seriesDiff]
  have hlm1 : lossMeanLast [1, 1, 1, 1, 1, 1, 1, 1, 1, 1, 1, 1, 1, 1, 1] 14 = 0 := by
    norm_num [lossMeanLast, lastMean, lossesOf, seriesDiff]
  have hgm2 : gainMeanLast [1, 2, 3, 4, 5, 6, 7, 8, 9, 10, 11, 12, 13, 14] 14 = 13 / 14 := by
    norm_num [gainMeanLast, lastMean, gainsOf, seriesDiff]
  have hlm2 : lossMeanLast [1, 2, 3, 4, 5, 6, 7, 8, 9, 10, 11, 12, 13, 14] 14 = 0 := by
    norm_num [lossMeanLast, lastMean, lossesOf, seriesDiff]
  refine ⟨?_, hlm1, ?_⟩
  · rw [calculate_rsi_eval _ 14 (by norm_num) (by simp), hgm1, hlm1]
    norm_num [PF.add, PF.div, PF.sub]
  · rw [calculate_rsi_eval _ 14 (by norm_num) (by simp), hgm2, hlm2]
    have h1 : PF.div (PF.fin (13 / 14)) (PF.fin 0) = PF.pinf := by
      norm_num [PF.div]
    rw [h1]
    norm_num [PF.add, PF.div, PF.sub]

/-- Witness for the amended C5: the increasing 15-bar series has zero loss
mean and positive gain mean, and `calculate_rsi` returns exactly 100. -/
theorem rsi_amended_witness :
    (0 : ℕ) < 14 ∧
    (14 : ℕ) ≤ ([1, 2, 3, 4, 5, 6, 7, 8, 9, 10, 11, 12, 13, 14, 15] : List ℚ).length ∧
    lossMeanLast [1, 2, 3, 4, 5, 6, 7, 8, 9, 10, 11, 12, 13, 14, 15] 14 = 0 ∧
    0 < gainMeanLast [1, 2, 3, 4, 5, 6, 7, 8, 9, 10, 11, 12, 13, 14, 15] 14 ∧
    calculate_rsi [1, 2, 3, 4, 5, 6, 7, 8, 9, 10, 11, 12, 13, 14, 15] 14 = PF.fin 100 := by
  have hlm : lossMeanLast [1, 2, 3, 4, 5, 6, 7, 8, 9, 10, 11, 12, 13, 14, 15] 14 = 0 := by
    norm_num [lossMeanLast, lastMean, lossesOf, seriesDiff]
  have hgm : gainMeanLast [1, 2, 3, 4, 5, 6, 7, 8, 9, 10, 11, 12, 13, 14, 15] 14 = 1 := by
    norm_num [gainMeanLast, lastMean, gainsOf, seriesDiff]
  refine ⟨by norm_num, by simp, hlm, by rw [hgm]; norm_num, ?_⟩
  exact ((rsi_amended [1, 2, 3, 4, 5, 6, 7, 8, 9, 10, 11, 12, 13, 14, 15] 14
    (by norm_num)).2.2 (by simp)).1 hlm (by rw [hgm]; norm_num)

-- ==================== Analyzer: EMA and trend (C8, C10) ====================

/-- The recursive tail of pandas `ewm(span=period, adjust=False).mean()`:
`y_i = (1 - α)·y_(i-1) + α·x_i`. -/
def emaFrom (a : ℚ) (prev : ℚ) : List ℚ → List ℚ
  | [] => []
  | x :: xs =>
    let y := (1 - a) * prev + a * x
    y :: emaFrom a y xs

/-- `ForexAnalyzer.calculate_ema` (src/analyzer.py lines 98–100):
exponentially weighted mean with `α = 2/(period+1)`, seeded by the first
value (`adjust=False`). -/
def calculate_ema (close : List ℚ) (period : ℕ) : List ℚ :=
  match close with
  | [] => []
  | x :: xs => x :: emaFrom (2 / ((period : ℚ) + 1)) x xs

/-- The `.iloc[-1]` of an EMA series (the default 0 is never reached for a
non-empty close series). -/
def emaLast (close : List ℚ) (p : ℕ) : ℚ :=
  (calculate_ema close p).getLastD 0

/-- The trend-reference EMA of `get_trend` (line 108): the 200-EMA when at
least 200 bars exist, otherwise the 50-EMA itself. -/
def trendEmaRef (close : List ℚ) : ℚ :=
  if 200 ≤ close.length then emaLast close 200 else emaLast close 50

/-- `ForexAnalyzer.get_trend` (src/analyzer.py lines 102–122): the five-way
decision cascade on the last close against the trend EMA (the computed
`ema_20` is unused by the source and omitted); `none` models the IndexError
of `iloc[-1]` on an empty series. -/
def get_trend (close : List ℚ) : Option String :=
  match close.getLast? with
  | none => none
  | some current =>
    some (if current > trendEmaRef close ∧ emaLast close 50 > trendEmaRef close then
        ("STRONG_UPTREND")
      else if current > trendEmaRef close then ("WEAK_UPTREND")
      else if current < trendEmaRef close ∧ emaLast close 50 < trendEmaRef close then
        ("STRONG_DOWNTREND")
      else if current < trendEmaRef close then ("WEAK_DOWNTREND")
      else ("RANGE_BOUND"))

/-- Modelled from the spec (§4.2 decision list): the five trend rules in
order, first match wins — the refinement reference for `get_trend`. -/
def trendDecisionSpec (price e50 etrend : ℚ) : String :=
  if price > etrend ∧ e50 > etrend then ("STRONG_UPTREND")
  else if price > etrend then ("WEAK_UPTREND")
  else if price < etrend ∧ e50 < etrend then ("STRONG_DOWNTREND")
  else if price < etrend then ("WEAK_DOWNTREND")
  else ("RANGE_BOUND")

/-- Claim C8: on every non-empty close series `get_trend` returns exactly
the spec's five-rule first-match decision (so exactly one of the five trend
strings), and a last price exactly equal to the trend EMA yields
RANGE_BOUND. -/
theorem get_trend_total (close : List ℚ) (h : close ≠ []) :
    get_trend close =
      some (trendDecisionSpec (close.getLast h) (emaLast close 50) (trendEmaRef close)) ∧
    trendDecisionSpec (close.getLast h) (emaLast close 50) (trendEmaRef close) ∈
      [("STRONG_UPTREND"), ("WEAK_UPTREND"), ("STRONG_DOWNTREND"),
       ("WEAK_DOWNTREND"), ("RANGE_BOUND")] ∧
    (close.getLast h = trendEmaRef close → get_trend close = some ("RANGE_BOUND")) := by
  have hgl : close.getLast? = some (close.getLast h) := List.getLast?_eq_getLast close h
  refine ⟨?_, ?_, ?_⟩
  · unfold get_trend
    rw [hgl]
    rfl
  · unfold trendDecisionSpec
    split_ifs <;> simp
  · intro he
    unfold get_trend
    rw [hgl, he]
    simp [lt_irrefl]

/-- Witness for C8: the one-bar series [1] has its last price equal to the
trend EMA (the 50-EMA proxy), so the result is RANGE_BOUND. -/
theorem get_trend_total_witness :
    (([1] : List ℚ) ≠ []) ∧ get_trend ([1] : List ℚ) = some ("RANGE_BOUND") := by
  have h : ([1] : List ℚ) ≠ [] := by simp
  refine ⟨h, ?_⟩
  apply (get_trend_total [1] h).2.2
  simp [trendEmaRef, emaLast, calculate_ema, emaFrom]

/-- Claim C10: with fewer than 200 bars the trend EMA is the 50-EMA itself,
so the strict comparisons of the STRONG rules can never hold: `get_trend`
returns only WEAK_UPTREND, WEAK_DOWNTREND or RANGE_BOUND. -/
theorem weak_trend_under_200 (close : List ℚ) (h : close ≠ [])
    (hlen : close.length < 200) :
    get_trend close ≠ some ("STRONG_UPTREND") ∧
    get_trend close ≠ some ("STRONG_DOWNTREND") ∧
    ∃ t, get_trend close = some t ∧
      (t = "WEAK_UPTREND" ∨ t = "WEAK_DOWNTREND" ∨ t = "RANGE_BOUND") := by
  have he : trendEmaRef close = emaLast close 50 := by
    unfold trendEmaRef
    rw [if_neg (by omega)]
  have hgl : close.getLast? = some (close.getLast h) := List.getLast?_eq_getLast close h
  unfold get_trend
  rw [hgl, he]
  dsimp only
  by_cases h1 : close.getLast h > emaLast close 50
  · have hn1 : ¬ (close.getLast h > emaLast close 50 ∧
        emaLast close 50 > emaLast close 50) := by
      rintro ⟨_, hh⟩
      exact lt_irrefl _ hh
    rw [if_neg hn1, if_pos h1]
    exact ⟨by decide, by decide, "WEAK_UPTREND", rfl, Or.inl rfl⟩
  · by_cases h2 : close.getLast h < emaLast close 50
    · have hn1 : ¬ (close.getLast h > emaLast close 50 ∧
          emaLast close 50 > emaLast close 50) := by
        rintro ⟨hh, _⟩
        exact h1 hh
      have hn3 : ¬ (close.getLast h < emaLast close 50 ∧
          emaLast close 50 < emaLast close 50) := by
        rintro ⟨_, hh⟩
        exact lt_irrefl _ hh
      rw [if_neg hn1, if_neg h1, if_neg hn3, if_pos h2]
      exact ⟨by decide, by decide, "WEAK_DOWNTREND", rfl, Or.inr (Or.inl rfl)⟩
    · have hn1 : ¬ (close.getLast h > emaLast close 50 ∧
          emaLast close 50 > emaLast close 50) := by
        rintro ⟨hh, _⟩
        exact h1 hh
      have hn3 : ¬ (close.getLast h < emaLast close 50 ∧
          emaLast close 50 < emaLast close 50) := by
        rintro ⟨hh, _⟩
        exact h2 hh
      rw [if_neg hn1, if_neg h1, if_neg hn3, if_neg h2]
      exact ⟨by decide, by decide, "RANGE_BOUND", rfl, Or.inr (Or.inr rfl)⟩

/-- Witness for C10 at the two-bar series [1, 2]. -/
theorem weak_trend_under_200_witness :
    (([1, 2] : List ℚ) ≠ []) ∧ (([1, 2] : List ℚ).length < 200) ∧
    get_trend ([1, 2] : List ℚ) ≠ some ("STRONG_UPTREND") := by
  refine ⟨by simp, by simp, ?_⟩
  exact (weak_trend_under_200 [1, 2] (by simp) (by simp)).1

-- ==================== Analyzer: candlestick patterns (C6, C9) ====================

/-- One OHLC bar, with the field names `get_candle_patterns` binds locally
(`o`, `h`, `l`, `c` — src/analyzer.py lines 200–203). -/
structure Bar where
  o : ℚ
  h : ℚ
  l : ℚ
  c : ℚ
deriving DecidableEq, Repr

/-- Doji (line 218): both shadows exceed three bodies.  The source compares
against `body`, not the epsilon-floored `body_size`, which is computed but
never used. -/
def dojiCond (b0 : Bar) : Prop :=
  b0.h - max b0.o b0.c > |b0.c - b0.o| * 3 ∧ min b0.o b0.c - b0.l > |b0.c - b0.o| * 3

/-- Bullish hammer (line 222). -/
def hammerCond (b0 : Bar) : Prop :=
  min b0.o b0.c - b0.l > |b0.c - b0.o| * 2 ∧
  b0.h - max b0.o b0.c < |b0.c - b0.o| * (1/2) ∧ b0.c > b0.o

/-- Inverted hammer (line 226). -/
def invertedHammerCond (b0 : Bar) : Prop :=
  b0.h - max b0.o b0.c > |b0.c - b0.o| * 2 ∧
  min b0.o b0.c - b0.l < |b0.c - b0.o| * (1/2) ∧ b0.c > b0.o

/-- Shooting star (line 230). -/
def shootingStarCond (b0 : Bar) : Prop :=
  b0.h - max b0.o b0.c > |b0.c - b0.o| * 2 ∧
  min b0.o b0.c - b0.l < |b0.c - b0.o| * (1/2) ∧ b0.c < b0.o

/-- Bullish engulfing (line 234), over the last two bars. -/
def bullEngulfCond (b0 b1 : Bar) : Prop :=
  b0.c > b0.o ∧ b1.c < b1.o ∧ b0.c > b1.o ∧ b0.o < b1.c

/-- Bearish engulfing (line 238). -/
def bearEngulfCond (b0 b1 : Bar) : Prop :=
  b0.c < b0.o ∧ b1.c > b1.o ∧ b0.c < b1.o ∧ b0.o > b1.c

/-- Morning star (line 248); `b2` is the bar three back. -/
def morningStarCond (b0 b1 b2 : Bar) : Prop :=
  b2.c < b2.o ∧ |b1.c - b1.o| < |b2.c - b2.o| * (3/10) ∧
  b0.c > b0.o ∧ b0.c > (b2.o + b2.c) / 2

/-- Evening star (line 258). -/
def eveningStarCond (b0 b1 b2 : Bar) : Prop :=
  b2.c > b2.o ∧ |b1.c - b1.o| < |b2.c - b2.o| * (3/10) ∧
  b0.c < b0.o ∧ b0.c < (b2.o + b2.c) / 2

/-- Three white soldiers (lines 263–264): three bullish bars, each closing
above the previous close — which reads a fourth bar back. -/
def soldiersCond (b0 b1 b2 b3 : Bar) : Prop :=
  b2.c > b2.o ∧ b1.c > b1.o ∧ b0.c > b0.o ∧
  b2.c > b3.c ∧ b1.c > b2.c ∧ b0.c > b1.c

/-- The input on which `get_candle_patterns` raises IndexError inside the
three-white-soldiers check: exactly 3 bars, all bullish, so the guarded
`all` passes and `close.iloc[-4]` is read on a length-3 series. -/
def soldiersCrash (bars : List Bar) : Prop :=
  match bars.reverse with
  | [b0, b1, b2] => b2.c > b2.o ∧ b1.c > b1.o ∧ b0.c > b0.o
  | _ => False

instance (b0 : Bar) : Decidable (dojiCond b0) := by
  unfold dojiCond; infer_instance

instance (b0 : Bar) : Decidable (hammerCond b0) := by
  unfold hammerCond; infer_instance

instance (b0 : Bar) : Decidable (invertedHammerCond b0) := by
  unfold invertedHammerCond; infer_instance

instance (b0 : Bar) : Decidable (shootingStarCond b0) := by
  unfold shootingStarCond; infer_instance

instance (b0 b1 : Bar) : Decidable (bullEngulfCond b0 b1) := by
  unfold bullEngulfCond; infer_instance

instance (b0 b1 : Bar) : Decidable (bearEngulfCond b0 b1) := by
  unfold bearEngulfCond; infer_instance

instance (b0 b1 b2 : Bar) : Decidable (morningStarCond b0 b1 b2) := by
  unfold morningStarCond; infer_instance

instance (b0 b1 b2 : Bar) : Decidable (eveningStarCond b0 b1 b2) := by
  unfold eveningStarCond; infer_instance

instance (b0 b1 b2 b3 : Bar) : Decidable (soldiersCond b0 b1 b2 b3) := by
  unfold soldiersCond; infer_instance

/-- `ForexAnalyzer.get_candle_patterns` (src/analyzer.py lines 198–267):
collect matching pattern names in the source's append order and return the
first, or NONE.  `none` models a raised IndexError: reading the previous
bar (line 211) with fewer than 2 bars, or reading `iloc[-4]` in the
soldiers check (line 264) with exactly 3 all-bullish bars.  The 3-bar
checks are guarded by `len(data) >= 3` exactly as in the source; the
engulfing checks are not. -/
def getCandlePatterns (bars : List Bar) : Option String :=
  match bars.reverse with
  | b0 :: b1 :: rest =>
    let ps2 : List String :=
      (if dojiCond b0 then [("DOJI")] else []) ++
      (if hammerCond b0 then [("BULLISH_HAMMER")] else []) ++
      (if invertedHammerCond b0 then [("INVERTED_HAMMER")] else []) ++
      (if shootingStarCond b0 then [("SHOOTING_STAR")] else []) ++
      (if bullEngulfCond b0 b1 then [("BULLISH_ENGULFING")] else []) ++
      (if bearEngulfCond b0 b1 then [("BEARISH_ENGULFING")] else [])
    match rest with
    | [] => some (ps2.headD ("NONE"))
    | b2 :: rest2 =>
      let ps3 : List String :=
        (if morningStarCond b0 b1 b2 then [("MORNING_STAR")] else []) ++
        (if eveningStarCond b0 b1 b2 then [("EVENING_STAR")] else [])
      if b2.c > b2.o ∧ b1.c > b1.o ∧ b0.c > b0.o then
        match rest2 with
        | [] => none
        | b3 :: _ =>
          let sold : List String :=
            if b2.c > b3.c ∧ b1.c > b2.c ∧ b0.c > b1.c then
              [("THREE_WHITE_SOLDIERS")]
            else []
          some ((ps2 ++ (ps3 ++ sold)).headD ("NONE"))
      else some ((ps2 ++ ps3).headD ("NONE"))
  | _ => none

/-- Modelled from the spec (§4.4): the nine pattern rules as a first-match
cascade in the listed priority order — the refinement reference for
`getCandlePatterns`. -/
def firstMatchSpec (bars : List Bar) : String :=
  match bars.reverse with
  | b0 :: b1 :: rest =>
    if dojiCond b0 then ("DOJI")
    else if hammerCond b0 then ("BULLISH_HAMMER")
    else if invertedHammerCond b0 then ("INVERTED_HAMMER")
    else if shootingStarCond b0 then ("SHOOTING_STAR")
    else if bullEngulfCond b0 b1 then ("BULLISH_ENGULFING")
    else if bearEngulfCond b0 b1 then ("BEARISH_ENGULFING")
    else
      match rest with
      | [] => ("NONE")
      | b2 :: rest2 =>
        if morningStarCond b0 b1 b2 then ("MORNING_STAR")
        else if eveningStarCond b0 b1 b2 then ("EVENING_STAR")
        else
          match rest2 with
          | [] => ("NONE")
          | b3 :: _ =>
            if soldiersCond b0 b1 b2 b3 then ("THREE_WHITE_SOLDIERS") else ("NONE")
  | _ => ("NONE")

theorem headD_if_append (c : Prop) [Decidable c] (nm d : String)
    (rest : List String) :
    ((if c then [nm] else []) ++ rest).headD d = if c then nm else rest.headD d := by
  split <;> simp

theorem headD_if (c : Prop) [Decidable c] (nm d : String) :
    ((if c then [nm] else []) : List String).headD d = if c then nm else d := by
  split <;> simp

theorem getCandlePatterns_eq_first (bars : List Bar)
    (hlen : 2 ≤ bars.length) (hcrash : ¬ soldiersCrash bars) :
    getCandlePatterns bars = some (firstMatchSpec bars) := by
  cases hrev : bars.reverse with
  | nil =>
    exfalso
    have hl0 : bars.length = 0 := by
      rw [← List.length_reverse, hrev]
      rfl
    omega
  | cons b0 t =>
    cases t with
    | nil =>
      exfalso
      have hl1 : bars.length = 1 := by
        rw [← List.length_reverse, hrev]
        rfl
      omega
    | cons b1 rest =>
      unfold getCandlePatterns firstMatchSpec
      rw [hrev]
      dsimp only
      cases rest with
      | nil =>
        simp only [List.append_assoc, headD_if_append, headD_if]
      | cons b2 rest2 =>
        dsimp only
        by_cases hb : b2.c > b2.o ∧ b1.c > b1.o ∧ b0.c > b0.o
        · cases rest2 with
          | nil =>
            exfalso
            apply hcrash
            unfold soldiersCrash
            rw [hrev]
            exact hb
          | cons b3 r3 =>
            dsimp only
            rw [if_pos hb]
            have hsc : soldiersCond b0 b1 b2 b3 ↔
                (b2.c > b3.c ∧ b1.c > b2.c ∧ b0.c > b1.c) := by
              unfold soldiersCond
              constructor
              · rintro ⟨_, _, _, s4, s5, s6⟩
                exact ⟨s4, s5, s6⟩
              · rintro ⟨s4, s5, s6⟩
                exact ⟨hb.1, hb.2.1, hb.2.2, s4, s5, s6⟩
            simp only [List.append_assoc, headD_if_append, headD_if, hsc]
        · rw [if_neg hb]
          have hns : ∀ b3 : Bar, ¬ soldiersCond b0 b1 b2 b3 := by
            intro b3 hs
            exact hb ⟨hs.1, hs.2.1, hs.2.2.1⟩
          cases rest2 with
          | nil =>
            simp only [List.append_assoc, headD_if_append, headD_if]
          | cons b3 r3 =>
            dsimp only
            simp only [List.append_assoc, headD_if_append, headD_if,
              if_neg (hns b3)]

/-- Counterexample to claim C9: no bar satisfies the DOJI and
BULLISH_HAMMER conditions simultaneously — DOJI needs the upper shadow
above three bodies while the hammer needs it below half a body, and the
body is nonnegative — so the claimed tie-break instance cannot occur. -/
theorem doji_hammer_incompatible :
    ¬ ∃ b0 : Bar, dojiCond b0 ∧ hammerCond b0 := by
  rintro ⟨b0, ⟨hd1, _⟩, ⟨_, hh2, _⟩⟩
  have h0 : 0 ≤ |b0.c - b0.o| := abs_nonneg _
  linarith

/-- Claim C9 (amended): whenever `get_candle_patterns` returns without an
IndexError (at least 2 bars, and not the 3-all-bullish crash input), it
reports exactly the first matching pattern of the fixed priority order
DOJI, BULLISH_HAMMER, INVERTED_HAMMER, SHOOTING_STAR, BULLISH_ENGULFING,
BEARISH_ENGULFING, MORNING_STAR, EVENING_STAR, THREE_WHITE_SOLDIERS; the
DOJI/BULLISH_HAMMER tie of the original claim is unsatisfiable, but e.g. a
bar satisfying both DOJI and BULLISH_ENGULFING reports DOJI. -/
theorem candle_priority_first_match (bars : List Bar)
    (hlen : 2 ≤ bars.length) (hcrash : ¬ soldiersCrash bars) :
    getCandlePatterns bars = some (firstMatchSpec bars) :=
  getCandlePatterns_eq_first bars hlen hcrash

/-- Witness for the amended C9: a two-bar input whose last bar satisfies
both the DOJI and the BULLISH_ENGULFING conditions; the matcher reports
DOJI, the earlier pattern. -/
theorem candle_priority_first_match_witness :
    2 ≤ ([⟨1251/1250, 1251/1250, 2001/2000, 2001/2000⟩,
          ⟨1, 201/200, 199/200, 1001/1000⟩] : List Bar).length ∧
    ¬ soldiersCrash [⟨1251/1250, 1251/1250, 2001/2000, 2001/2000⟩,
          ⟨1, 201/200, 199/200, 1001/1000⟩] ∧
    dojiCond ⟨1, 201/200, 199/200, 1001/1000⟩ ∧
    bullEngulfCond ⟨1, 201/200, 199/200, 1001/1000⟩
      ⟨1251/1250, 1251/1250, 2001/2000, 2001/2000⟩ ∧
    getCandlePatterns [⟨1251/1250, 1251/1250, 2001/2000, 2001/2000⟩,
          ⟨1, 201/200, 199/200, 1001/1000⟩] = some ("DOJI") := by
  have habs : |(1001:ℚ)/1000 - 1| = 1/1000 := by norm_num
  have habs2 : |(1:ℚ)/1000| = 1/1000 := by norm_num
  have hdoji : dojiCond ⟨1, 201/200, 199/200, 1001/1000⟩ := by
    unfold dojiCond
    norm_num [max_def, min_def, habs, habs2]
  have hcr : ¬ soldiersCrash [⟨1251/1250, 1251/1250, 2001/2000, 2001/2000⟩,
      ⟨1, 201/200, 199/200, 1001/1000⟩] := fun h => h.elim
  refine ⟨by norm_num, hcr, hdoji, ?_, ?_⟩
  · unfold bullEngulfCond
    norm_num
  · rw [candle_priority_first_match _ (by norm_num) hcr]
    unfold firstMatchSpec
    simp only [List.reverse_cons, List.reverse_nil, List.nil_append,
      List.cons_append, List.singleton_append]
    rw [if_pos hdoji]

/-- Counterexample to claim C6: on a single-bar series the matcher raises
IndexError reading the previous bar (it does not evaluate single-candle
patterns), and on a two-bar series the two-candle engulfing check is
evaluated, not skipped. -/
theorem candle_patterns_claim_cex :
    getCandlePatterns [⟨1, 2, 0, 1⟩] = none ∧
    getCandlePatterns [⟨9/5, 9/5, 6/5, 6/5⟩, ⟨1, 2, 1, 2⟩] =
      some ("BULLISH_ENGULFING") := by
  constructor
  · rfl
  · have habs : |(2:ℚ) - 1| = 1 := by norm_num
    have hcr : ¬ soldiersCrash [⟨9/5, 9/5, 6/5, 6/5⟩, ⟨1, 2, 1, 2⟩] :=
      fun h => h.elim
    rw [getCandlePatterns_eq_first _ (by norm_num) hcr]
    unfold firstMatchSpec
    simp only [List.reverse_cons, List.reverse_nil, List.nil_append,
      List.cons_append, List.singleton_append]
    have hd : ¬ dojiCond ⟨1, 2, 1, 2⟩ := by
      unfold dojiCond
      norm_num [max_def, min_def, habs]
    have hh : ¬ hammerCond ⟨1, 2, 1, 2⟩ := by
      unfold hammerCond
      norm_num [max_def, min_def, habs]
    have hi : ¬ invertedHammerCond ⟨1, 2, 1, 2⟩ := by
      unfold invertedHammerCond
      norm_num [max_def, min_def, habs]
    have hs : ¬ shootingStarCond ⟨1, 2, 1, 2⟩ := by
      unfold shootingStarCond
      norm_num [max_def, min_def, habs]
    have he : bullEngulfCond ⟨1, 2, 1, 2⟩ ⟨9/5, 9/5, 6/5, 6/5⟩ := by
      unfold bullEngulfCond
      norm_num
    rw [if_neg hd, if_neg hh, if_neg hi, if_neg hs, if_pos he]

/-- Claim C6 (amended): for every series of at least 2 bars that is not the
crash input (exactly 3 bars, all bullish — there `iloc[-4]` raises
IndexError), `get_candle_patterns` returns a single pattern name or NONE;
on a 2-bar series the three-candle patterns (star/soldiers) cannot be
reported, but the two-candle engulfing checks do run; a 1-bar series
raises IndexError instead of evaluating single-candle patterns. -/
theorem candle_patterns_amended (bars : List Bar)
    (hlen : 2 ≤ bars.length) (hcrash : ¬ soldiersCrash bars) :
    (∃ p, getCandlePatterns bars = some p) ∧
    (bars.length = 2 →
      getCandlePatterns bars ≠ some ("MORNING_STAR") ∧
      getCandlePatterns bars ≠ some ("EVENING_STAR") ∧
      getCandlePatterns bars ≠ some ("THREE_WHITE_SOLDIERS")) := by
  refine ⟨⟨firstMatchSpec bars, getCandlePatterns_eq_first bars hlen hcrash⟩, ?_⟩
  intro h2
  rw [getCandlePatterns_eq_first bars hlen hcrash]
  have hrl : bars.reverse.length = 2 := by
    rw [List.length_reverse]
    exact h2
  cases hrev : bars.reverse with
  | nil =>
    rw [hrev] at hrl
    simp at hrl
  | cons b0 t =>
    cases t with
    | nil =>
      rw [hrev] at hrl
      simp at hrl
    | cons b1 rest =>
      cases rest with
      | nil =>
        unfold firstMatchSpec
        rw [hrev]
        dsimp only
        split_ifs <;> exact ⟨by decide, by decide, by decide⟩
      | cons b2 r2 =>
        rw [hrev] at hrl
        simp at hrl

/-- Witness for the amended C6: two flat bars produce NONE without error,
and no three-candle pattern can be reported on a 2-bar series. -/
theorem candle_patterns_amended_witness :
    2 ≤ ([⟨1, 1, 1, 1⟩, ⟨1, 1, 1, 1⟩] : List Bar).length ∧
    ¬ soldiersCrash [⟨1, 1, 1, 1⟩, ⟨1, 1, 1, 1⟩] ∧
    getCandlePatterns [⟨1, 1, 1, 1⟩, ⟨1, 1, 1, 1⟩] ≠
      some ("THREE_WHITE_SOLDIERS") := by
  have hcr : ¬ soldiersCrash [⟨1, 1, 1, 1⟩, ⟨1, 1, 1, 1⟩] := fun h => h.elim
  refine ⟨by norm_num, hcr, ?_⟩
  exact ((candle_patterns_amended [⟨1, 1, 1, 1⟩, ⟨1, 1, 1, 1⟩]
    (by norm_num) hcr).2 rfl).2.2

-- ==================== Analyzer: support/resistance clustering (C7) ====================

/-- Python `min(levels)` for a non-empty list (0 is never reached by
`cluster_levels`, which requires `len(levels) >= num_clusters >= 1`). -/
def listMin : List ℚ → ℚ
  | [] => 0
  | x :: xs => xs.foldl min x

/-- Python `max(levels)`, as above. -/
def listMax : List ℚ → ℚ
  | [] => 0
  | x :: xs => xs.foldl max x

/-- The bin-membership test of `cluster_levels` (src/analyzer.py line 157):
`min_p + i*step <= l < min_p + (i+1)*step` with
`step = (max_p - min_p)/num_clusters`. -/
def inBin (levels : List ℚ) (nc : ℕ) (i : ℕ) (v : ℚ) : Prop :=
  listMin levels + i * ((listMax levels - listMin levels) / nc) ≤ v ∧
  v < listMin levels + (i + 1) * ((listMax levels - listMin levels) / nc)

instance (levels : List ℚ) (nc i : ℕ) (v : ℚ) : Decidable (inBin levels nc i v) := by
  unfold inBin
  infer_instance

/-- `cluster_levels` (src/analyzer.py lines 147–161), the nested helper of
`find_support_resistance`: fewer candidates than clusters returns them
sorted; otherwise bin into `num_clusters` equal-width half-open bins and
return the sorted arithmetic means of the non-empty bins.  (With
`num_clusters = 0` the source raises ZeroDivisionError computing `step`;
the claims only concern `num_clusters >= 1`.) -/
def cluster_levels (levels : List ℚ) (nc : ℕ) : List ℚ :=
  if levels.length < nc then List.insertionSort (· ≤ ·) levels
  else
    let min_p := listMin levels
    let max_p := listMax levels
    let step := (max_p - min_p) / nc
    let clustered := (List.range nc).filterMap (fun (i : ℕ) =>
      let b := levels.filter (fun l =>
        decide (min_p + (i : ℚ) * step ≤ l ∧ l < min_p + ((i : ℚ) + 1) * step))
      if b.isEmpty then none else some (b.sum / b.length))
    List.insertionSort (· ≤ ·) clustered

theorem foldl_min_le_init (bs : List ℚ) : ∀ c : ℚ, bs.foldl min c ≤ c := by
  induction bs with
  | nil => intro c; exact le_refl c
  | cons b bs ih =>
    intro c
    calc (b :: bs).foldl min c = bs.foldl min (min c b) := rfl
    _ ≤ min c b := ih (min c b)
    _ ≤ c := min_le_left c b

theorem init_le_foldl_max (bs : List ℚ) : ∀ c : ℚ, c ≤ bs.foldl max c := by
  induction bs with
  | nil => intro c; exact le_refl c
  | cons b bs ih =>
    intro c
    calc c ≤ max c b := le_max_left c b
    _ ≤ bs.foldl max (max c b) := ih (max c b)
    _ = (b :: bs).foldl max c := rfl

theorem foldl_min_le (bs : List ℚ) : ∀ (c x : ℚ), x ∈ bs → bs.foldl min c ≤ x := by
  induction bs with
  | nil => intro c x hx; simp at hx
  | cons b bs ih =>
    intro c x hx
    rcases List.mem_cons.mp hx with rfl | hx2
    · calc (x :: bs).foldl min c = bs.foldl min (min c x) := rfl
      _ ≤ min c x := foldl_min_le_init bs (min c x)
      _ ≤ x := min_le_right c x
    · exact ih (min c b) x hx2

theorem le_foldl_max (bs : List ℚ) : ∀ (c x : ℚ), x ∈ bs → x ≤ bs.foldl max c := by
  induction bs with
  | nil => intro c x hx; simp at hx
  | cons b bs ih =>
    intro c x hx
    rcases List.mem_cons.mp hx with rfl | hx2
    · calc x ≤ max c x := le_max_right c x
      _ ≤ bs.foldl max (max c x) := init_le_foldl_max bs (max c x)
      _ = (x :: bs).foldl max c := rfl
    · exact ih (max c b) x hx2

theorem listMin_le (l : List ℚ) (x : ℚ) (hx : x ∈ l) : listMin l ≤ x := by
  cases l with
  | nil => simp at hx
  | cons a as =>
    rcases List.mem_cons.mp hx with rfl | hx2
    · exact foldl_min_le_init as x
    · exact foldl_min_le as a x hx2

theorem le_listMax (l : List ℚ) (x : ℚ) (hx : x ∈ l) : x ≤ listMax l := by
  cases l with
  | nil => simp at hx
  | cons a as =>
    rcases List.mem_cons.mp hx with rfl | hx2
    · exact init_le_foldl_max as x
    · exact le_foldl_max as a x hx2

theorem cluster_levels_eq (levels : List ℚ) (nc : ℕ) (h : ¬ levels.length < nc) :
    cluster_levels levels nc = List.insertionSort (· ≤ ·)
      ((List.range nc).filterMap (fun (i : ℕ) =>
        let b := levels.filter (fun l =>
          decide (listMin levels + (i : ℚ) * ((listMax levels - listMin levels) / nc) ≤ l ∧
            l < listMin levels + ((i : ℚ) + 1) * ((listMax levels - listMin levels) / nc)))
        if b.isEmpty then none else some (b.sum / b.length))) := by
  unfold cluster_levels
  rw [if_neg h]

theorem mem_filterMap_of (f : ℕ → Option ℚ) (l : List ℕ) (a : ℕ) (b : ℚ)
    (ha : a ∈ l) (hf : f a = some b) : b ∈ l.filterMap f := by
  induction l with
  | nil => simp at ha
  | cons x xs ih =>
    rcases List.mem_cons.mp ha with rfl | h2
    · rw [List.filterMap_cons, hf]
      exact List.mem_cons_self _ _
    · rw [List.filterMap_cons]
      cases hfx : f x
      · exact ih h2
      · exact List.mem_cons_of_mem _ (ih h2)

/-- Claim C7 (amended): with at least `num_clusters >= 1` candidates and
distinct min and max, every candidate *except the maximum* falls into
exactly one of the `num_clusters` equal-width half-open bins; the maximum
falls into none of them (the topmost bin's upper bound is exactly the
maximum and is excluded, so the maximum is dropped); each non-empty bin
contributes its arithmetic mean to the clustered levels. -/
theorem cluster_bins_amended (levels : List ℚ) (nc : ℕ)
    (h1 : 0 < nc) (h2 : nc ≤ levels.length) (h3 : listMin levels ≠ listMax levels) :
    (∀ v ∈ levels, v ≠ listMax levels →
      ∃ i, i < nc ∧ inBin levels nc i v ∧
        ∀ j, j < nc → inBin levels nc j v → j = i) ∧
    (∀ i, i < nc → ¬ inBin levels nc i (listMax levels)) ∧
    (∀ i, i < nc → ∀ bl : List ℚ,
      bl = levels.filter (fun l => decide (inBin levels nc i l)) →
      bl ≠ [] → bl.sum / bl.length ∈ cluster_levels levels nc) := by
  have hne : levels ≠ [] := by
    intro h
    rw [h] at h2
    simp at h2
    omega
  obtain ⟨x0, hx0⟩ : ∃ x, x ∈ levels := List.exists_mem_of_ne_nil levels hne
  have hmle : listMin levels ≤ listMax levels :=
    le_trans (listMin_le levels x0 hx0) (le_listMax levels x0 hx0)
  have hmM : listMin levels < listMax levels := lt_of_le_of_ne hmle h3
  have hncQ : (0 : ℚ) < nc := by exact_mod_cast h1
  have hs : 0 < (listMax levels - listMin levels) / nc :=
    div_pos (sub_pos.mpr hmM) hncQ
  have hstep : (nc : ℚ) * ((listMax levels - listMin levels) / nc) =
      listMax levels - listMin levels := by
    field_simp
  refine ⟨?_, ?_, ?_⟩
  · intro v hv hvne
    have hvm : listMin levels ≤ v := listMin_le levels v hv
    have hvM : v < listMax levels := lt_of_le_of_ne (le_listMax levels v hv) hvne
    have hd0 : 0 ≤ (v - listMin levels) / ((listMax levels - listMin levels) / nc) :=
      div_nonneg (by linarith) hs.le
    have hk0 : 0 ≤ ⌊(v - listMin levels) / ((listMax levels - listMin levels) / nc)⌋ :=
      Int.floor_nonneg.mpr hd0
    have hdlt : (v - listMin levels) / ((listMax levels - listMin levels) / nc) < nc := by
      rw [div_lt_iff hs]
      rw [show (nc : ℚ) * ((listMax levels - listMin levels) / nc) =
        listMax levels - listMin levels from hstep]
      linarith
    have hkn : ⌊(v - listMin levels) / ((listMax levels - listMin levels) / nc)⌋ <
        (nc : ℤ) := by
      apply Int.floor_lt.mpr
      push_cast
      exact hdlt
    have hik : ((⌊(v - listMin levels) /
        ((listMax levels - listMin levels) / nc)⌋.toNat : ℕ) : ℤ) =
        ⌊(v - listMin levels) / ((listMax levels - listMin levels) / nc)⌋ :=
      Int.toNat_of_nonneg hk0
    refine ⟨⌊(v - listMin levels) / ((listMax levels - listMin levels) / nc)⌋.toNat,
      by omega, ?_, ?_⟩
    · constructor
      · have h5 : ((⌊(v - listMin levels) / ((listMax levels - listMin levels) / nc)⌋ : ℤ) : ℚ) ≤
            (v - listMin levels) / ((listMax levels - listMin levels) / nc) :=
          Int.floor_le _
        have h6 := (le_div_iff hs).mp h5
        have hcast : ((⌊(v - listMin levels) /
            ((listMax levels - listMin levels) / nc)⌋.toNat : ℕ) : ℚ) =
            ((⌊(v - listMin levels) / ((listMax levels - listMin levels) / nc)⌋ : ℤ) : ℚ) := by
          exact_mod_cast congrArg (fun z : ℤ => (z : ℚ)) hik
        rw [hcast]
        linarith [h6]
      · have h7 : (v - listMin levels) / ((listMax levels - listMin levels) / nc) <
            ((⌊(v - listMin levels) / ((listMax levels - listMin levels) / nc)⌋ : ℤ) : ℚ) + 1 :=
          Int.lt_floor_add_one _
        have h8 : v - listMin levels <
            (((⌊(v - listMin levels) / ((listMax levels - listMin levels) / nc)⌋ : ℤ) : ℚ) + 1) *
              ((listMax levels - listMin levels) / nc) := by
          rw [← div_lt_iff hs]
          exact h7
        have hcast : ((⌊(v - listMin levels) /
            ((listMax levels - listMin levels) / nc)⌋.toNat : ℕ) : ℚ) =
            ((⌊(v - listMin levels) / ((listMax levels - listMin levels) / nc)⌋ : ℤ) : ℚ) := by
          exact_mod_cast congrArg (fun z : ℤ => (z : ℚ)) hik
        push_cast
        rw [hcast]
        linarith [h8]
    · intro j hj hbin
      obtain ⟨hl, hu⟩ := hbin
      have hfl : (j : ℚ) ≤ (v - listMin levels) / ((listMax levels - listMin levels) / nc) :=
        (le_div_iff hs).mpr (by linarith [hl])
      have hfu : (v - listMin levels) / ((listMax levels - listMin levels) / nc) <
          (j : ℚ) + 1 := by
        rw [div_lt_iff hs]
        push_cast at hu
        linarith [hu]
      have hjfl : ⌊(v - listMin levels) / ((listMax levels - listMin levels) / nc)⌋ =
          (j : ℤ) := by
        rw [Int.floor_eq_iff]
        constructor
        · push_cast
          exact hfl
        · push_cast
          exact hfu
      omega
  · intro i hi hbin
    obtain ⟨_, hu⟩ := hbin
    have hu2 : listMax levels - listMin levels <
        ((i : ℚ) + 1) * ((listMax levels - listMin levels) / nc) := by
      push_cast at hu
      linarith
    have h9 : (nc : ℚ) * ((listMax levels - listMin levels) / nc) <
        ((i : ℚ) + 1) * ((listMax levels - listMin levels) / nc) := by
      rw [hstep]
      linarith
    have hu3 : (nc : ℚ) < (i : ℚ) + 1 := (mul_lt_mul_right hs).mp h9
    have hu4 : nc < i + 1 := by exact_mod_cast hu3
    omega
  · intro i hi bl hbl hblne
    rw [cluster_levels_eq levels nc (by omega)]
    have hmemsort : ∀ (a : ℚ) (L : List ℚ), a ∈ List.insertionSort (· ≤ ·) L ↔ a ∈ L := by
      intro a L
      exact (List.perm_insertionSort (· ≤ ·) L).mem_iff
    rw [hmemsort]
    have hfeq : levels.filter (fun l =>
        decide (listMin levels + (i : ℚ) * ((listMax levels - listMin levels) / nc) ≤ l ∧
          l < listMin levels + ((i : ℚ) + 1) * ((listMax levels - listMin levels) / nc))) = bl := by
      rw [hbl]
      apply List.filter_congr
      intro x _
      rw [decide_eq_decide]
      exact Iff.rfl
    apply mem_filterMap_of _ _ i _ (List.mem_range.mpr hi)
    show (let b := levels.filter (fun l =>
        decide (listMin levels + (i : ℚ) * ((listMax levels - listMin levels) / nc) ≤ l ∧
          l < listMin levels + ((i : ℚ) + 1) * ((listMax levels - listMin levels) / nc)))
      if b.isEmpty then none else some (b.sum / b.length)) = some (bl.sum / bl.length)
    rw [hfeq]
    cases bl with
    | nil => exact absurd rfl hblne
    | cons y ys => simp

/-- Counterexample to claim C7: for the candidates [1, 2, 3] with 2
clusters, the maximum 3 falls into neither bin (the topmost bin is half-open
at the maximum), and the clustered output [1, 2] drops it entirely. -/
theorem cluster_max_excluded_cex :
    (3 : ℚ) ∈ ([1, 2, 3] : List ℚ) ∧
    ¬ inBin [1, 2, 3] 2 0 3 ∧
    ¬ inBin [1, 2, 3] 2 1 3 ∧
    cluster_levels [1, 2, 3] 2 = [1, 2] := by
  refine ⟨by norm_num, ?_, ?_, ?_⟩
  · intro h
    obtain ⟨_, h2⟩ := h
    norm_num [listMin, listMax, min_def, max_def] at h2
  · intro h
    obtain ⟨_, h2⟩ := h
    norm_num [listMin, listMax, min_def, max_def] at h2
  · norm_num [cluster_levels, listMin, listMax, min_def, max_def,
      show List.range 2 = [0, 1] from rfl, List.filterMap_cons, List.filter_cons,
      List.filter_nil, List.isEmpty, List.insertionSort, List.orderedInsert]

/-- Witness for the amended C7: in [1, 2, 3] with 2 clusters the non-maximal
candidate 1 lies in exactly one bin. -/
theorem cluster_bins_amended_witness :
    (0 < 2) ∧ (2 ≤ ([1, 2, 3] : List ℚ).length) ∧
    (listMin [1, 2, 3] ≠ listMax [1, 2, 3]) ∧
    (∃ i, i < 2 ∧ inBin [1, 2, 3] 2 i 1 ∧
      ∀ j, j < 2 → inBin [1, 2, 3] 2 j 1 → j = i) := by
  have h3 : listMin ([1, 2, 3] : List ℚ) ≠ listMax [1, 2, 3] := by
    norm_num [listMin, listMax, min_def, max_def]
  refine ⟨by norm_num, by norm_num, h3, ?_⟩
  exact (cluster_bins_amended [1, 2, 3] 2 (by norm_num) (by norm_num) h3).1 1
    (by norm_num) (by norm_num [listMax, max_def])
